import Mathlib

/-!
Verification of `fix_remove_widgets_Version2.py`, a utility that removes the
`widgets` key from per-cell metadata and top-level metadata of Jupyter
notebook files, after backing each file up to `<name>.bak`.

The embedding models:
* notebook documents as records with optional `cells` and `metadata` entries
  (mirroring `nb.get("cells", [])` and `cell.get("metadata", {})`),
  metadata being an association list from string keys to opaque values;
* the filesystem as an association list from path strings to file contents,
  where a content is either a serialized notebook or non-notebook bytes;
* `remove_widgets_from_notebook` as a function from a filesystem and a path
  to a result that is either a returned boolean (plus the new filesystem and
  the printed status lines) or a propagated parse exception;
* `main`'s loop over the argument list as `processAll`.
-/

/-- Opaque metadata / field values: the source never inspects values, only
keys, so values are modeled as an opaque enumeration that can hold sample
data. -/
inductive Value where
  | s (x : String)
  | n (x : Int)
  | b (x : Bool)
  | null
deriving DecidableEq, Repr

/-- A metadata mapping: string keys to opaque values, as an association
list (Python dict with arbitrary keys). -/
abbrev Meta := List (String × Value)

/-- Key membership test, modeling Python `k in meta`. -/
def metaHas (m : Meta) (k : String) : Bool :=
  m.any (fun e => e.1 == k)

/-- Key removal, modeling Python `del meta[k]`. -/
def metaErase (m : Meta) (k : String) : Meta :=
  m.filter (fun e => e.1 != k)

/-- Key lookup, modeling Python `meta[k]` / `meta.get(k)`. -/
def metaLookup (m : Meta) (k : String) : Option Value :=
  (m.find? (fun e => e.1 == k)).map (fun e => e.2)

/-- A notebook cell: an optional `metadata` mapping (a cell dict may lack the
key, hence `Option`), and all remaining fields (`source`, `outputs`,
`execution_count`, ...) passed through opaquely. -/
structure Cell where
  metadata : Option Meta
  rest : List (String × Value)
deriving DecidableEq, Repr

/-- A notebook document: declared format version, optional `cells` list,
optional top-level `metadata` mapping, and all remaining fields opaque. -/
structure Notebook where
  nbformat : Nat
  nbformat_minor : Nat
  cells : Option (List Cell)
  metadata : Option Meta
  rest : List (String × Value)
deriving DecidableEq, Repr

/-- Status lines printed by the script (`[SKIP]`, `[BACKUP]`, per-cell
removal notices, top-level removal notice, `[PATCHED]`, `[NO CHANGE]`). -/
inductive Line where
  | skip (p : String)
  | backup (p bak : String)
  | removedCell (i : Nat)
  | removedTop
  | patched (p : String)
  | noChange (p : String)
deriving DecidableEq, Repr

/-- The loop body for one cell (source lines 33-38):
`meta = cell.get("metadata", {})`; if `"widgets" in meta`, delete the key and
store the mapping back, reporting a change; otherwise leave the cell alone. -/
def stripCell (c : Cell) : Cell × Bool :=
  let meta := c.metadata.getD []
  if metaHas meta "widgets" then
    ({ c with metadata := some (metaErase meta "widgets") }, true)
  else
    (c, false)

/-- The cell loop (source lines 32-38): visits cells in order, carrying the
enumeration index for the removal notices; returns the updated cells, whether
any change occurred, and the printed lines. -/
def stripCells : Nat → List Cell → List Cell × Bool × List Line
  | _, [] => ([], false, [])
  | i, c :: cs =>
    let r := stripCell c
    let rest := stripCells (i + 1) cs
    (r.1 :: rest.1, r.2 || rest.2.1,
      (if r.2 then [Line.removedCell i] else []) ++ rest.2.2)

/-- Result of the pure mutation phase: the mutated notebook, the `changed`
flag, and the removal notices printed while mutating. -/
structure StripResult where
  nb : Notebook
  changed : Bool
  log : List Line
deriving DecidableEq, Repr

/-- The in-memory mutation (source lines 29-45): strip `widgets` from each
cell's metadata (`nb.get("cells", [])`, so a document without `cells` is
traversed as empty and left without a `cells` entry), then strip the
top-level `metadata.widgets` key (`nb.get("metadata", {})`). -/
def stripNotebook (nb : Notebook) : StripResult :=
  let cr := stripCells 0 (nb.cells.getD [])
  let nb1 : Notebook :=
    match nb.cells with
    | none => nb
    | some _ => { nb with cells := some cr.1 }
  let topMeta := nb1.metadata.getD []
  if metaHas topMeta "widgets" then
    { nb := { nb1 with metadata := some (metaErase topMeta "widgets") },
      changed := true,
      log := cr.2.2 ++ [Line.removedTop] }
  else
    { nb := nb1, changed := cr.2.1, log := cr.2.2 }

/-- File contents: either a serialized notebook (`nbformat.write` output,
which `nbformat.read` parses back) or bytes that do not parse as a
notebook. -/
inductive Content where
  | notebook (nb : Notebook)
  | invalid (raw : Nat)
deriving DecidableEq, Repr

/-- Parsing (`nbformat.read(..., as_version=NO_CONVERT)`): succeeds exactly
on serialized notebooks, preserving the stored document (including its
declared format version); raises otherwise. -/
def nbParse : Content → Option Notebook
  | Content.notebook nb => some nb
  | Content.invalid _ => none

/-- Serialization (`nbformat.write`, default `version=NO_CONVERT`): writes
the document using its own declared format version. -/
def nbSerialize (nb : Notebook) : Content :=
  Content.notebook nb

/-- The filesystem: an association list from path strings to contents. -/
abbrev FS := List (String × Content)

/-- Read the content at a path (`none` models a missing file). -/
def fsGet (fs : FS) (p : String) : Option Content :=
  (fs.find? (fun e => e.1 == p)).map (fun e => e.2)

/-- Write content at a path, overwriting an existing entry. -/
def fsSet : FS → String → Content → FS
  | [], p, c => [(p, c)]
  | e :: fs, p, c => if e.1 == p then (p, c) :: fs else e :: fsSet fs p c

/-- The backup path: `path.with_suffix(path.suffix + ".bak")`, which appends
`.bak` to the filename. -/
def bakPath (p : String) : String :=
  p ++ ".bak"

/-- Result of one `remove_widgets_from_notebook(path)` call: either a normal
return carrying the boolean return value, the resulting filesystem and the
printed lines, or a propagated (uncaught) parse exception. -/
inductive PResult where
  | ret (b : Bool) (fs : FS) (log : List Line)
  | raised (fs : FS) (log : List Line)
deriving DecidableEq, Repr

/-- `remove_widgets_from_notebook(path)` (source lines 18-53): skip missing
files returning `False`; otherwise back the file up to `bakPath`, parse it
(a parse failure propagates), strip `widgets` keys, write the document back
only when a change occurred, and return `True`. -/
def remove_widgets_from_notebook (fs : FS) (p : String) : PResult :=
  match fsGet fs p with
  | none => PResult.ret false fs [Line.skip p]
  | some content =>
    let bak := bakPath p
    let fs1 := fsSet fs bak content
    let log1 := [Line.backup p bak]
    match nbParse content with
    | none => PResult.raised fs1 log1
    | some nb =>
      let r := stripNotebook nb
      if r.changed then
        PResult.ret true (fsSet fs1 p (nbSerialize r.nb))
          (log1 ++ r.log ++ [Line.patched p])
      else
        PResult.ret true fs1 (log1 ++ r.log ++ [Line.noChange p])

/-- Result of the `main` loop: either all paths were processed, or an
exception halted the run with the listed paths never attempted. -/
inductive RunResult where
  | finished (fs : FS) (log : List Line)
  | halted (fs : FS) (log : List Line) (pending : List String)
deriving DecidableEq, Repr

/-- The `main` loop (source lines 59-60): call
`remove_widgets_from_notebook` on each path in order; an uncaught exception
halts the whole run before any later path is attempted. -/
def processAll (fs : FS) : List String → RunResult
  | [] => RunResult.finished fs []
  | p :: ps =>
    match remove_widgets_from_notebook fs p with
    | PResult.ret _ fs1 l1 =>
      match processAll fs1 ps with
      | RunResult.finished fs2 l2 => RunResult.finished fs2 (l1 ++ l2)
      | RunResult.halted fs2 l2 pend => RunResult.halted fs2 (l1 ++ l2) pend
    | PResult.raised fs1 l1 => RunResult.halted fs1 l1 ps

/-- The filesystem component of a `PResult`. -/
def resultFS : PResult → FS
  | PResult.ret _ fs _ => fs
  | PResult.raised fs _ => fs

/-- Whether a `widgets` key occurs anywhere the script looks: in some cell's
metadata or in the top-level metadata. -/
def widgetsAny (nb : Notebook) : Bool :=
  (nb.cells.getD []).any (fun c => metaHas (c.metadata.getD []) "widgets")
    || metaHas (nb.metadata.getD []) "widgets"

/-- Specification-side relation between a metadata mapping and its stripped
form: the `widgets` key is gone and every other key maps to its old value. -/
def MetaStrip (m m' : Meta) : Prop :=
  metaLookup m' "widgets" = none ∧
    ∀ k, k ≠ "widgets" → metaLookup m' k = metaLookup m k

/-- Specification-side relation between a cell and its processed form: a cell
whose metadata contains `widgets` keeps all non-metadata fields and has its
metadata stripped; any other cell is completely unchanged. -/
def CellStrip (c c' : Cell) : Prop :=
  if metaHas (c.metadata.getD []) "widgets" then
    c'.rest = c.rest ∧
      ∃ m m', c.metadata = some m ∧ c'.metadata = some m' ∧ MetaStrip m m'
  else
    c' = c

/-- Specification-side relation between a document and its processed form:
format version and unknown top-level fields preserved, cells related
pairwise in order by `CellStrip` (presence of the `cells` entry preserved),
and the top-level metadata stripped of `widgets` when present, otherwise
unchanged (presence of the `metadata` entry preserved). -/
def NbStrip (nb nb' : Notebook) : Prop :=
  nb'.nbformat = nb.nbformat ∧
  nb'.nbformat_minor = nb.nbformat_minor ∧
  nb'.rest = nb.rest ∧
  (nb.cells = none → nb'.cells = none) ∧
  (∀ cs, nb.cells = some cs →
    ∃ cs', nb'.cells = some cs' ∧ List.Forall₂ CellStrip cs cs') ∧
  (nb.metadata = none → nb'.metadata = none) ∧
  (∀ m, nb.metadata = some m →
    if metaHas m "widgets" then
      ∃ m', nb'.metadata = some m' ∧ MetaStrip m m'
    else nb'.metadata = some m)

/-- Sample metadata mapping containing a `widgets` key and another key. -/
def sampleMetaW : Meta := [("widgets", Value.null), ("collapsed", Value.b true)]

/-- Sample cell without a `widgets` key in its metadata. -/
def sampleCellA : Cell :=
  { metadata := some [("scrolled", Value.b false)],
    rest := [("source", Value.s "print(1)")] }

/-- Sample cell whose metadata contains `widgets`. -/
def sampleCellB : Cell :=
  { metadata := some sampleMetaW, rest := [("source", Value.s "x")] }

/-- Sample cell with no `metadata` entry at all. -/
def sampleCellC : Cell :=
  { metadata := none, rest := [("source", Value.s "y")] }

/-- Sample notebook with widget metadata in one cell and at top level. -/
def sampleNb : Notebook :=
  { nbformat := 4, nbformat_minor := 2,
    cells := some [sampleCellA, sampleCellB, sampleCellC],
    metadata := some [("widgets", Value.n 0), ("kernelspec", Value.s "python3")],
    rest := [] }

/-- Sample notebook lacking a `cells` entry and free of `widgets` keys. -/
def sampleNbNoCells : Notebook :=
  { nbformat := 4, nbformat_minor := 2,
    cells := none,
    metadata := some [("language", Value.s "python")],
    rest := [] }

/-- Sample filesystem holding a notebook file, a widgets-free notebook file
and a malformed file. -/
def sampleFS : FS :=
  [("a.ipynb", Content.notebook sampleNb),
   ("plain.ipynb", Content.notebook sampleNbNoCells),
   ("bad.ipynb", Content.invalid 7)]

theorem fsGet_cons (e : String × Content) (fs : FS) (p : String) :
    fsGet (e :: fs) p = if e.1 = p then some e.2 else fsGet fs p := by
  by_cases h : e.1 = p
  · rw [if_pos h]
    unfold fsGet
    rw [List.find?_cons_of_pos _ (by simpa using h)]
    rfl
  · rw [if_neg h]
    unfold fsGet
    rw [List.find?_cons_of_neg _ (by simpa using h)]

theorem fsSet_cons (e : String × Content) (fs : FS) (p : String) (c : Content) :
    fsSet (e :: fs) p c = if e.1 = p then (p, c) :: fs else e :: fsSet fs p c := by
  by_cases h : e.1 = p <;> simp [fsSet, h]

theorem fsGet_fsSet_self (fs : FS) (p : String) (c : Content) :
    fsGet (fsSet fs p c) p = some c := by
  induction fs with
  | nil =>
    show fsGet [(p, c)] p = some c
    rw [fsGet_cons]
    simp
  | cons e fs ih =>
    rw [fsSet_cons]
    by_cases h : e.1 = p
    · rw [if_pos h, fsGet_cons]
      simp
    · rw [if_neg h, fsGet_cons, if_neg h]
      exact ih

theorem fsGet_fsSet_ne (fs : FS) (p q : String) (c : Content) (h : q ≠ p) :
    fsGet (fsSet fs p c) q = fsGet fs q := by
  induction fs with
  | nil =>
    show fsGet [(p, c)] q = fsGet [] q
    rw [fsGet_cons, if_neg (Ne.symm h)]
  | cons e fs ih =>
    rw [fsSet_cons]
    by_cases he : e.1 = p
    · rw [if_pos he, fsGet_cons, fsGet_cons, if_neg (Ne.symm h),
        if_neg (fun a => h (a.symm.trans he))]
    · rw [if_neg he, fsGet_cons, fsGet_cons]
      by_cases hq : e.1 = q
      · rw [if_pos hq, if_pos hq]
      · rw [if_neg hq, if_neg hq]
        exact ih

theorem bakPath_ne (p : String) : bakPath p ≠ p := by
  intro h
  have h2 := congrArg String.length h
  rw [bakPath, String.length_append] at h2
  have h4 : (".bak" : String).length = 4 := rfl
  omega

theorem metaLookup_cons (e : String × Value) (m : Meta) (k : String) :
    metaLookup (e :: m) k = if e.1 = k then some e.2 else metaLookup m k := by
  by_cases h : e.1 = k
  · rw [if_pos h]
    unfold metaLookup
    rw [List.find?_cons_of_pos _ (by simpa using h)]
    rfl
  · rw [if_neg h]
    unfold metaLookup
    rw [List.find?_cons_of_neg _ (by simpa using h)]

theorem metaErase_cons (e : String × Value) (m : Meta) (k : String) :
    metaErase (e :: m) k = if e.1 = k then metaErase m k else e :: metaErase m k := by
  by_cases h : e.1 = k <;> simp [metaErase, List.filter_cons, h]

theorem metaHas_cons (e : String × Value) (m : Meta) (k : String) :
    metaHas (e :: m) k = if e.1 = k then true else metaHas m k := by
  by_cases h : e.1 = k <;> simp [metaHas, h]

theorem metaLookup_metaErase_self (m : Meta) (k : String) :
    metaLookup (metaErase m k) k = none := by
  induction m with
  | nil => rfl
  | cons e m ih =>
    rw [metaErase_cons]
    by_cases h : e.1 = k
    · rw [if_pos h]
      exact ih
    · rw [if_neg h, metaLookup_cons, if_neg h]
      exact ih

theorem metaLookup_metaErase_ne (m : Meta) (k k' : String) (h : k' ≠ k) :
    metaLookup (metaErase m k) k' = metaLookup m k' := by
  induction m with
  | nil => rfl
  | cons e m ih =>
    rw [metaErase_cons, metaLookup_cons]
    by_cases he : e.1 = k
    · rw [if_pos he, if_neg (fun a => h ((a.symm.trans he)))]
      exact ih
    · rw [if_neg he, metaLookup_cons]
      by_cases hq : e.1 = k'
      · rw [if_pos hq, if_pos hq]
      · rw [if_neg hq, if_neg hq]
        exact ih

theorem metaHas_eq_isSome (m : Meta) (k : String) :
    metaHas m k = (metaLookup m k).isSome := by
  induction m with
  | nil => rfl
  | cons e m ih =>
    rw [metaHas_cons, metaLookup_cons]
    by_cases h : e.1 = k
    · rw [if_pos h, if_pos h]
      rfl
    · rw [if_neg h, if_neg h]
      exact ih

theorem metaHas_metaErase_self (m : Meta) (k : String) :
    metaHas (metaErase m k) k = false := by
  rw [metaHas_eq_isSome, metaLookup_metaErase_self]
  rfl

theorem metaLookup_of_not_has (m : Meta) (k : String) (h : metaHas m k = false) :
    metaLookup m k = none := by
  rw [metaHas_eq_isSome] at h
  exact Option.not_isSome_iff_eq_none.mp (by simp [h])

theorem stripCell_snd (c : Cell) :
    (stripCell c).2 = metaHas (c.metadata.getD []) "widgets" := by
  cases h : metaHas (c.metadata.getD []) "widgets" <;> simp [stripCell, h]

theorem stripCell_fst_of_not (c : Cell)
    (h : metaHas (c.metadata.getD []) "widgets" = false) :
    (stripCell c).1 = c := by
  simp [stripCell, h]

theorem stripCell_rest (c : Cell) : (stripCell c).1.rest = c.rest := by
  cases h : metaHas (c.metadata.getD []) "widgets" <;> simp [stripCell, h]

theorem stripCell_fst_of_has (c : Cell)
    (h : metaHas (c.metadata.getD []) "widgets" = true) :
    (stripCell c).1 =
      { c with metadata := some (metaErase (c.metadata.getD []) "widgets") } := by
  simp [stripCell, h]

theorem stripCell_metaLookup_ne (c : Cell) (k : String) (hk : k ≠ "widgets") :
    metaLookup ((stripCell c).1.metadata.getD []) k
      = metaLookup (c.metadata.getD []) k := by
  cases h : metaHas (c.metadata.getD []) "widgets"
  · rw [stripCell_fst_of_not c h]
  · rw [stripCell_fst_of_has c h]
    simp only [Option.getD_some]
    exact metaLookup_metaErase_ne _ _ _ hk

theorem stripCell_metaHas_widgets (c : Cell) :
    metaHas ((stripCell c).1.metadata.getD []) "widgets" = false := by
  cases h : metaHas (c.metadata.getD []) "widgets"
  · rw [stripCell_fst_of_not c h]
    exact h
  · rw [stripCell_fst_of_has c h]
    simp only [Option.getD_some]
    exact metaHas_metaErase_self _ _

theorem stripCell_spec (c : Cell) : CellStrip c (stripCell c).1 := by
  unfold CellStrip
  cases h : metaHas (c.metadata.getD []) "widgets"
  · rw [if_neg (by simp [h])]
    exact stripCell_fst_of_not c h
  · rw [if_pos (by simp [h])]
    refine ⟨stripCell_rest c, ?_⟩
    cases hm : c.metadata with
    | none =>
      rw [hm] at h
      simp [metaHas] at h
    | some m =>
      refine ⟨m, metaErase m "widgets", rfl, ?_, ?_, ?_⟩
      · rw [stripCell_fst_of_has c h, hm]
        simp
      · exact metaLookup_metaErase_self m _
      · exact fun k hk => metaLookup_metaErase_ne m _ k hk

theorem stripCells_fst (i : Nat) (cs : List Cell) :
    (stripCells i cs).1 = cs.map (fun c => (stripCell c).1) := by
  induction cs generalizing i with
  | nil => rfl
  | cons c cs ih => simp [stripCells, ih]

theorem stripCells_snd (i : Nat) (cs : List Cell) :
    (stripCells i cs).2.1
      = cs.any (fun c => metaHas (c.metadata.getD []) "widgets") := by
  induction cs generalizing i with
  | nil => rfl
  | cons c cs ih => simp [stripCells, ih, stripCell_snd]

theorem stripCells_forall₂ (i : Nat) (cs : List Cell) :
    List.Forall₂ CellStrip cs (stripCells i cs).1 := by
  induction cs generalizing i with
  | nil => exact List.Forall₂.nil
  | cons c cs ih => exact List.Forall₂.cons (stripCell_spec c) (ih (i + 1))

theorem stripCells_log_of_not (i : Nat) (cs : List Cell)
    (h : (stripCells i cs).2.1 = false) : (stripCells i cs).2.2 = [] := by
  induction cs generalizing i with
  | nil => rfl
  | cons c cs ih =>
    have h2 : (stripCell c).2 = false ∧ (stripCells (i + 1) cs).2.1 = false := by
      simpa [stripCells, Bool.or_eq_false_iff] using h
    simp [stripCells, h2.1, ih (i + 1) h2.2]

theorem stripNotebook_nbformat (nb : Notebook) :
    (stripNotebook nb).nb.nbformat = nb.nbformat := by
  unfold stripNotebook
  cases hc : nb.cells <;> cases ht : metaHas (nb.metadata.getD []) "widgets" <;>
    simp [hc, ht]

theorem stripNotebook_nbformat_minor (nb : Notebook) :
    (stripNotebook nb).nb.nbformat_minor = nb.nbformat_minor := by
  unfold stripNotebook
  cases hc : nb.cells <;> cases ht : metaHas (nb.metadata.getD []) "widgets" <;>
    simp [hc, ht]

theorem stripNotebook_rest (nb : Notebook) :
    (stripNotebook nb).nb.rest = nb.rest := by
  unfold stripNotebook
  cases hc : nb.cells <;> cases ht : metaHas (nb.metadata.getD []) "widgets" <;>
    simp [hc, ht]

theorem stripNotebook_cells_none (nb : Notebook) (h : nb.cells = none) :
    (stripNotebook nb).nb.cells = none := by
  unfold stripNotebook
  cases ht : metaHas (nb.metadata.getD []) "widgets" <;> simp [h, ht]

theorem stripNotebook_cells_some (nb : Notebook) (cs : List Cell)
    (h : nb.cells = some cs) :
    (stripNotebook nb).nb.cells = some ((stripCells 0 cs).1) := by
  unfold stripNotebook
  cases ht : metaHas (nb.metadata.getD []) "widgets" <;> simp [h, ht]

theorem stripNotebook_metadata (nb : Notebook) :
    (stripNotebook nb).nb.metadata =
      if metaHas (nb.metadata.getD []) "widgets" then
        some (metaErase (nb.metadata.getD []) "widgets")
      else nb.metadata := by
  unfold stripNotebook
  cases hc : nb.cells <;> cases ht : metaHas (nb.metadata.getD []) "widgets" <;>
    simp [hc, ht]

theorem stripNotebook_changed (nb : Notebook) :
    (stripNotebook nb).changed = widgetsAny nb := by
  unfold stripNotebook widgetsAny
  cases hc : nb.cells <;> cases ht : metaHas (nb.metadata.getD []) "widgets" <;>
    simp [hc, ht, stripCells, stripCells_snd]

theorem stripNotebook_log_of_not (nb : Notebook)
    (h : (stripNotebook nb).changed = false) : (stripNotebook nb).log = [] := by
  rw [stripNotebook_changed] at h
  obtain ⟨f1, f2, cls, md, rst⟩ := nb
  unfold widgetsAny at h
  have hsplit := Bool.or_eq_false_iff.mp h
  have ht : metaHas (md.getD []) "widgets" = false := hsplit.2
  cases cls with
  | none =>
    unfold stripNotebook
    simp [ht, stripCells]
  | some cs =>
    have h1 : (cs.any fun c => metaHas (c.metadata.getD []) "widgets") = false :=
      hsplit.1
    unfold stripNotebook
    simp [ht, stripCells_log_of_not 0 cs (by rw [stripCells_snd]; exact h1)]

theorem stripNotebook_nb_of_unchanged (nb : Notebook)
    (h : widgetsAny nb = false) : (stripNotebook nb).nb = nb := by
  obtain ⟨f1, f2, cls, md, rst⟩ := nb
  unfold widgetsAny at h
  have hsplit := Bool.or_eq_false_iff.mp h
  have ht : metaHas (md.getD []) "widgets" = false := hsplit.2
  cases cls with
  | none =>
    unfold stripNotebook
    simp [ht]
  | some cs =>
    have h1 : (cs.any fun c => metaHas (c.metadata.getD []) "widgets") = false :=
      hsplit.1
    have hcells : ∀ c ∈ cs, metaHas (c.metadata.getD []) "widgets" = false := by
      intro c hcmem
      exact Bool.eq_false_iff.mpr (List.any_eq_false.mp h1 c hcmem)
    have hmap : (stripCells 0 cs).1 = cs := by
      rw [stripCells_fst]
      calc cs.map (fun c => (stripCell c).1) = cs.map id :=
            List.map_congr_left
              (fun c hcmem => stripCell_fst_of_not c (hcells c hcmem))
        _ = cs := List.map_id cs
    unfold stripNotebook
    simp [ht, hmap]

theorem stripNotebook_spec (nb : Notebook) : NbStrip nb (stripNotebook nb).nb := by
  refine ⟨stripNotebook_nbformat nb, stripNotebook_nbformat_minor nb,
    stripNotebook_rest nb, stripNotebook_cells_none nb, ?_, ?_, ?_⟩
  · intro cs hcs
    exact ⟨(stripCells 0 cs).1, stripNotebook_cells_some nb cs hcs,
      stripCells_forall₂ 0 cs⟩
  · intro hm
    rw [stripNotebook_metadata, hm]
    simp [metaHas]
  · intro m hm
    rw [stripNotebook_metadata, hm]
    simp only [Option.getD_some]
    cases hw : metaHas m "widgets"
    · simp [hw]
    · exact ⟨metaErase m "widgets", by simp, metaLookup_metaErase_self m _,
        fun k hk => metaLookup_metaErase_ne m _ k hk⟩

theorem widgetsAny_stripNotebook (nb : Notebook) :
    widgetsAny (stripNotebook nb).nb = false := by
  unfold widgetsAny
  rw [Bool.or_eq_false_iff]
  constructor
  · cases hc : nb.cells with
    | none =>
      rw [stripNotebook_cells_none nb hc]
      rfl
    | some cs =>
      rw [stripNotebook_cells_some nb cs hc]
      simp only [Option.getD_some, stripCells_fst, List.any_map]
      rw [List.any_eq_false]
      intro c hcmem
      simp [Function.comp, stripCell_metaHas_widgets]
  · rw [stripNotebook_metadata]
    cases hw : metaHas (nb.metadata.getD []) "widgets"
    · simp [hw]
    · rw [if_pos (by simp [hw])]
      simp [metaHas_metaErase_self]

theorem process_missing_eq (fs : FS) (p : String) (h : fsGet fs p = none) :
    remove_widgets_from_notebook fs p = PResult.ret false fs [Line.skip p] := by
  unfold remove_widgets_from_notebook
  rw [h]

theorem process_invalid_eq (fs : FS) (p : String) (r : Nat)
    (h : fsGet fs p = some (Content.invalid r)) :
    remove_widgets_from_notebook fs p =
      PResult.raised (fsSet fs (bakPath p) (Content.invalid r))
        [Line.backup p (bakPath p)] := by
  unfold remove_widgets_from_notebook
  rw [h]
  rfl

theorem process_notebook_eq (fs : FS) (p : String) (nb : Notebook)
    (h : fsGet fs p = some (Content.notebook nb)) :
    remove_widgets_from_notebook fs p =
      if (stripNotebook nb).changed then
        PResult.ret true
          (fsSet (fsSet fs (bakPath p) (Content.notebook nb)) p
            (Content.notebook (stripNotebook nb).nb))
          ([Line.backup p (bakPath p)] ++ (stripNotebook nb).log
            ++ [Line.patched p])
      else
        PResult.ret true (fsSet fs (bakPath p) (Content.notebook nb))
          ([Line.backup p (bakPath p)] ++ (stripNotebook nb).log
            ++ [Line.noChange p]) := by
  unfold remove_widgets_from_notebook
  rw [h]
  cases hch : (stripNotebook nb).changed <;>
    simp [nbParse, nbSerialize, hch]

theorem stripCells_length (i : Nat) (cs : List Cell) :
    (stripCells i cs).1.length = cs.length := by
  rw [stripCells_fst, List.length_map]

theorem stripCells_get (cs : List Cell) (i : Nat) (hi : i < cs.length)
    (hi' : i < (stripCells 0 cs).1.length) :
    (stripCells 0 cs).1.get ⟨i, hi'⟩ = (stripCell (cs.get ⟨i, hi⟩)).1 := by
  simp [stripCells_fst, List.get_eq_getElem, List.getElem_map]

theorem process_notebook_run (fs : FS) (p : String) (nb : Notebook)
    (h : fsGet fs p = some (Content.notebook nb)) :
    ∃ fs' log, remove_widgets_from_notebook fs p = PResult.ret true fs' log ∧
      fsGet fs' (bakPath p) = some (Content.notebook nb) ∧
      fsGet fs' p = some (Content.notebook
        (if widgetsAny nb then (stripNotebook nb).nb else nb)) ∧
      log = [Line.backup p (bakPath p)] ++ (stripNotebook nb).log
        ++ [if widgetsAny nb then Line.patched p else Line.noChange p] := by
  rw [process_notebook_eq fs p nb h]
  cases hch : (stripNotebook nb).changed
  · rw [if_neg (by simp [hch])]
    have hw : widgetsAny nb = false := by rw [← stripNotebook_changed, hch]
    refine ⟨_, _, rfl, ?_, ?_, ?_⟩
    · exact fsGet_fsSet_self fs (bakPath p) _
    · rw [fsGet_fsSet_ne fs (bakPath p) p _ (Ne.symm (bakPath_ne p)), h, hw]
      simp
    · rw [hw]
      simp
  · rw [if_pos (by simp [hch])]
    have hw : widgetsAny nb = true := by rw [← stripNotebook_changed, hch]
    refine ⟨_, _, rfl, ?_, ?_, ?_⟩
    · rw [fsGet_fsSet_ne _ p (bakPath p) _ (bakPath_ne p)]
      exact fsGet_fsSet_self fs (bakPath p) _
    · rw [fsGet_fsSet_self, hw]
      simp [nbSerialize]
    · rw [hw]
      simp

/-- C1: for every existing, well-formed notebook document,
`remove_widgets_from_notebook` removes the `widgets` key from the metadata of
every cell that contains it (in document order) and from the document-level
metadata when present, leaving untouched every cell lacking the key, every
non-metadata field of every cell, and every other metadata key. -/
theorem process_removes_widgets_everywhere (fs : FS) (p : String)
    (nb : Notebook) (h : fsGet fs p = some (Content.notebook nb)) :
    ∃ fs' log nb',
      remove_widgets_from_notebook fs p = PResult.ret true fs' log ∧
      fsGet fs' p = some (Content.notebook nb') ∧ NbStrip nb nb' := by
  obtain ⟨fs', log, heq, _, hp, _⟩ := process_notebook_run fs p nb h
  refine ⟨fs', log, if widgetsAny nb then (stripNotebook nb).nb else nb,
    heq, hp, ?_⟩
  cases hw : widgetsAny nb
  · have hspec := stripNotebook_spec nb
    rw [stripNotebook_nb_of_unchanged nb hw] at hspec
    simpa [hw] using hspec
  · simpa [hw] using stripNotebook_spec nb

/-- Witness for C1 at a concrete filesystem and notebook. -/
theorem process_removes_widgets_everywhere_witness :
    ∃ fs' log nb',
      remove_widgets_from_notebook sampleFS "a.ipynb" = PResult.ret true fs' log ∧
      fsGet fs' "a.ipynb" = some (Content.notebook nb') ∧ NbStrip sampleNb nb' :=
  process_removes_widgets_everywhere sampleFS "a.ipynb" sampleNb (by decide)

/-- C2: for every existing input file, processing copies its content
byte-for-byte to the sibling path with the literal suffix `.bak` appended,
unconditionally (also for widgets-free and unparseable files); afterwards
the backup holds the content the original had before processing began. -/
theorem process_backs_up_original (fs : FS) (p : String) (c : Content)
    (h : fsGet fs p = some c) :
    fsGet (resultFS (remove_widgets_from_notebook fs p)) (bakPath p)
      = some c := by
  cases c with
  | invalid r =>
    rw [process_invalid_eq fs p r h]
    exact fsGet_fsSet_self fs (bakPath p) _
  | notebook nb =>
    obtain ⟨fs', log, heq, hbak, _, _⟩ := process_notebook_run fs p nb h
    rw [heq]
    exact hbak

/-- Witness for C2 at a concrete widgets-free notebook file (backup is made
even though nothing will be removed). -/
theorem process_backs_up_original_witness :
    fsGet (resultFS (remove_widgets_from_notebook sampleFS "plain.ipynb"))
        (bakPath "plain.ipynb")
      = some (Content.notebook sampleNbNoCells) :=
  process_backs_up_original sampleFS "plain.ipynb"
    (Content.notebook sampleNbNoCells) (by decide)

/-- C3: processing writes the serialized document back to the original path
exactly when a `widgets` key was found (in some cell or at top level); with
no `widgets` key anywhere the original file content is untouched, while the
backup exists in either case. -/
theorem process_writes_back_iff_removed (fs : FS) (p : String) (nb : Notebook)
    (h : fsGet fs p = some (Content.notebook nb)) :
    ∃ fs' log,
      remove_widgets_from_notebook fs p = PResult.ret true fs' log ∧
      fsGet fs' (bakPath p) = some (Content.notebook nb) ∧
      (widgetsAny nb = true →
        fsGet fs' p = some (nbSerialize (stripNotebook nb).nb) ∧
        Line.patched p ∈ log) ∧
      (widgetsAny nb = false →
        fsGet fs' p = some (Content.notebook nb) ∧
        Line.noChange p ∈ log) := by
  obtain ⟨fs', log, heq, hbak, hp, hlog⟩ := process_notebook_run fs p nb h
  refine ⟨fs', log, heq, hbak, ?_, ?_⟩ <;> intro hw <;> rw [hw] at hp <;>
    constructor
  · simpa [nbSerialize] using hp
  · simp [hlog, hw]
  · simpa using hp
  · simp [hlog, hw]

/-- Witness for C3 at a concrete notebook containing `widgets` keys. -/
theorem process_writes_back_iff_removed_witness :
    ∃ fs' log,
      remove_widgets_from_notebook sampleFS "a.ipynb" = PResult.ret true fs' log ∧
      fsGet fs' (bakPath "a.ipynb") = some (Content.notebook sampleNb) ∧
      (widgetsAny sampleNb = true →
        fsGet fs' "a.ipynb" = some (nbSerialize (stripNotebook sampleNb).nb) ∧
        Line.patched "a.ipynb" ∈ log) ∧
      (widgetsAny sampleNb = false →
        fsGet fs' "a.ipynb" = some (Content.notebook sampleNb) ∧
        Line.noChange "a.ipynb" ∈ log) :=
  process_writes_back_iff_removed sampleFS "a.ipynb" sampleNb (by decide)

/-- C5: a missing path is reported as a skip, returns `False`, creates no
backup and has no filesystem effect and raises nothing; every existing
notebook file that is processed yields a `True` return. -/
theorem process_skip_and_return_contract :
    (∀ fs p, fsGet fs p = none →
      remove_widgets_from_notebook fs p = PResult.ret false fs [Line.skip p]) ∧
    (∀ fs p nb, fsGet fs p = some (Content.notebook nb) →
      ∃ fs' log, remove_widgets_from_notebook fs p = PResult.ret true fs' log) := by
  constructor
  · exact process_missing_eq
  · intro fs p nb h
    obtain ⟨fs', log, heq, _⟩ := process_notebook_run fs p nb h
    exact ⟨fs', log, heq⟩

/-- Witness for C5: a concrete missing path and a concrete existing file. -/
theorem process_skip_and_return_contract_witness :
    remove_widgets_from_notebook sampleFS "gone.ipynb"
      = PResult.ret false sampleFS [Line.skip "gone.ipynb"] ∧
    ∃ fs' log, remove_widgets_from_notebook sampleFS "a.ipynb"
      = PResult.ret true fs' log :=
  ⟨process_skip_and_return_contract.1 sampleFS "gone.ipynb" (by decide),
   process_skip_and_return_contract.2 sampleFS "a.ipynb" sampleNb (by decide)⟩

/-- C4: across one read-mutate-write cycle every field other than the two
`widgets` keys is structurally preserved: format version, unknown top-level
fields, cell count and order, each cell's non-metadata fields, and every
non-`widgets` metadata key and value, per cell and at top level. -/
theorem process_preserves_other_fields (fs : FS) (p : String) (nb : Notebook)
    (h : fsGet fs p = some (Content.notebook nb)) :
    ∃ fs' log nb',
      remove_widgets_from_notebook fs p = PResult.ret true fs' log ∧
      fsGet fs' p = some (Content.notebook nb') ∧
      nb'.nbformat = nb.nbformat ∧
      nb'.nbformat_minor = nb.nbformat_minor ∧
      nb'.rest = nb.rest ∧
      Option.map List.length nb'.cells = Option.map List.length nb.cells ∧
      (∀ cs cs', nb.cells = some cs → nb'.cells = some cs' →
        ∀ i, ∀ hi : i < cs.length, ∀ hi' : i < cs'.length,
          (cs'.get ⟨i, hi'⟩).rest = (cs.get ⟨i, hi⟩).rest ∧
          ∀ k, k ≠ "widgets" →
            metaLookup ((cs'.get ⟨i, hi'⟩).metadata.getD []) k
              = metaLookup ((cs.get ⟨i, hi⟩).metadata.getD []) k) ∧
      (∀ k, k ≠ "widgets" →
        metaLookup (nb'.metadata.getD []) k
          = metaLookup (nb.metadata.getD []) k) := by
  obtain ⟨fs', log, heq, _, hp, _⟩ := process_notebook_run fs p nb h
  cases hw : widgetsAny nb
  · rw [hw] at hp
    simp only [Bool.false_eq_true, if_false] at hp
    refine ⟨fs', log, nb, heq, hp, rfl, rfl, rfl, rfl, ?_, ?_⟩
    · intro cs cs' hcs hcs' i hi hi'
      rw [hcs] at hcs'
      obtain rfl := Option.some.inj hcs'
      exact ⟨rfl, fun k hk => rfl⟩
    · exact fun k hk => rfl
  · rw [hw] at hp
    simp only [if_true] at hp
    refine ⟨fs', log, (stripNotebook nb).nb, heq, hp,
      stripNotebook_nbformat nb, stripNotebook_nbformat_minor nb,
      stripNotebook_rest nb, ?_, ?_, ?_⟩
    · cases hc : nb.cells with
      | none =>
        simp [stripNotebook_cells_none nb hc, hc]
      | some cs =>
        rw [stripNotebook_cells_some nb cs hc]
        simp [stripCells_length]
    · intro cs cs' hcs hcs' i hi hi'
      rw [stripNotebook_cells_some nb cs hcs] at hcs'
      obtain rfl := Option.some.inj hcs'
      constructor
      · rw [stripCells_get cs i hi hi']
        exact stripCell_rest _
      · intro k hk
        rw [stripCells_get cs i hi hi']
        exact stripCell_metaLookup_ne _ k hk
    · intro k hk
      rw [stripNotebook_metadata]
      cases ht : metaHas (nb.metadata.getD []) "widgets"
      · rw [if_neg (by simp [ht])]
      · rw [if_pos (by simp [ht])]
        simp only [Option.getD_some]
        exact metaLookup_metaErase_ne _ _ _ hk

/-- Witness for C4 at a concrete notebook file. -/
theorem process_preserves_other_fields_witness :
    ∃ fs' log nb',
      remove_widgets_from_notebook sampleFS "a.ipynb" = PResult.ret true fs' log ∧
      fsGet fs' "a.ipynb" = some (Content.notebook nb') ∧
      nb'.nbformat = sampleNb.nbformat ∧
      nb'.nbformat_minor = sampleNb.nbformat_minor ∧
      nb'.rest = sampleNb.rest ∧
      Option.map List.length nb'.cells = Option.map List.length sampleNb.cells ∧
      (∀ cs cs', sampleNb.cells = some cs → nb'.cells = some cs' →
        ∀ i, ∀ hi : i < cs.length, ∀ hi' : i < cs'.length,
          (cs'.get ⟨i, hi'⟩).rest = (cs.get ⟨i, hi⟩).rest ∧
          ∀ k, k ≠ "widgets" →
            metaLookup ((cs'.get ⟨i, hi'⟩).metadata.getD []) k
              = metaLookup ((cs.get ⟨i, hi⟩).metadata.getD []) k) ∧
      (∀ k, k ≠ "widgets" →
        metaLookup (nb'.metadata.getD []) k
          = metaLookup (sampleNb.metadata.getD []) k) :=
  process_preserves_other_fields sampleFS "a.ipynb" sampleNb (by decide)

/-- C6: processing the same path twice yields after the second run the same
file content as after the first; the second run finds no `widgets` key left,
reports no-change, prints no removal notice and performs no write-back. -/
theorem process_idempotent (fs : FS) (p : String) (nb : Notebook)
    (h : fsGet fs p = some (Content.notebook nb)) :
    ∃ fs1 l1, remove_widgets_from_notebook fs p = PResult.ret true fs1 l1 ∧
    ∃ nb1 fs2 l2,
      fsGet fs1 p = some (Content.notebook nb1) ∧
      widgetsAny nb1 = false ∧
      remove_widgets_from_notebook fs1 p = PResult.ret true fs2 l2 ∧
      fsGet fs2 p = fsGet fs1 p ∧
      Line.noChange p ∈ l2 ∧
      (∀ i, Line.removedCell i ∉ l2) ∧
      Line.removedTop ∉ l2 ∧
      Line.patched p ∉ l2 := by
  obtain ⟨fs1, l1, heq1, _, hp1, _⟩ := process_notebook_run fs p nb h
  refine ⟨fs1, l1, heq1, ?_⟩
  have hw1 : widgetsAny (if widgetsAny nb then (stripNotebook nb).nb else nb)
      = false := by
    cases hw : widgetsAny nb
    · simpa using hw
    · simpa using widgetsAny_stripNotebook nb
  obtain ⟨fs2, l2, heq2, hbak2, hp2, hlog2⟩ :=
    process_notebook_run fs1 p
      (if widgetsAny nb then (stripNotebook nb).nb else nb) hp1
  have hstripnone :
      (stripNotebook (if widgetsAny nb then (stripNotebook nb).nb else nb)).log
        = [] :=
    stripNotebook_log_of_not _ (by rw [stripNotebook_changed]; exact hw1)
  refine ⟨_, fs2, l2, hp1, hw1, heq2, ?_, ?_, ?_, ?_, ?_⟩
  · rw [hp2, hp1, hw1]
    simp
  · rw [hlog2, hstripnone, hw1]
    simp
  · intro i
    rw [hlog2, hstripnone, hw1]
    simp
  · rw [hlog2, hstripnone, hw1]
    simp
  · rw [hlog2, hstripnone, hw1]
    simp

/-- Witness for C6 at a concrete notebook file. -/
theorem process_idempotent_witness :
    ∃ fs1 l1,
      remove_widgets_from_notebook sampleFS "a.ipynb" = PResult.ret true fs1 l1 ∧
    ∃ nb1 fs2 l2,
      fsGet fs1 "a.ipynb" = some (Content.notebook nb1) ∧
      widgetsAny nb1 = false ∧
      remove_widgets_from_notebook fs1 "a.ipynb" = PResult.ret true fs2 l2 ∧
      fsGet fs2 "a.ipynb" = fsGet fs1 "a.ipynb" ∧
      Line.noChange "a.ipynb" ∈ l2 ∧
      (∀ i, Line.removedCell i ∉ l2) ∧
      Line.removedTop ∉ l2 ∧
      Line.patched "a.ipynb" ∉ l2 :=
  process_idempotent sampleFS "a.ipynb" sampleNb (by decide)

/-- C8: the notebook is read with its declared format version preserved and
written back with that same version, with no upgrade or downgrade. -/
theorem process_preserves_format_version (fs : FS) (p : String) (nb : Notebook)
    (h : fsGet fs p = some (Content.notebook nb)) :
    ∃ fs' log nb',
      remove_widgets_from_notebook fs p = PResult.ret true fs' log ∧
      fsGet fs' p = some (Content.notebook nb') ∧
      nb'.nbformat = nb.nbformat ∧
      nb'.nbformat_minor = nb.nbformat_minor := by
  obtain ⟨fs', log, heq, _, hp, _⟩ := process_notebook_run fs p nb h
  refine ⟨fs', log, if widgetsAny nb then (stripNotebook nb).nb else nb,
    heq, hp, ?_, ?_⟩
  · cases hw : widgetsAny nb <;> simp [hw, stripNotebook_nbformat]
  · cases hw : widgetsAny nb <;> simp [hw, stripNotebook_nbformat_minor]

/-- Witness for C8 at a concrete notebook file. -/
theorem process_preserves_format_version_witness :
    ∃ fs' log nb',
      remove_widgets_from_notebook sampleFS "a.ipynb" = PResult.ret true fs' log ∧
      fsGet fs' "a.ipynb" = some (Content.notebook nb') ∧
      nb'.nbformat = sampleNb.nbformat ∧
      nb'.nbformat_minor = sampleNb.nbformat_minor :=
  process_preserves_format_version sampleFS "a.ipynb" sampleNb (by decide)

/-- C7: the `main` loop calls `remove_widgets_from_notebook` on each path in
order, independently: with paths `[A, B]` where `A` is missing and `B` is an
existing notebook file, `B` is processed exactly as it would be alone (same
resulting filesystem, backup included), `A` contributing only its skip
line. -/
theorem processAll_independent_of_missing (fs : FS) (A B : String)
    (nb : Notebook) (hA : fsGet fs A = none)
    (hB : fsGet fs B = some (Content.notebook nb)) :
    ∃ fs' log,
      remove_widgets_from_notebook fs B = PResult.ret true fs' log ∧
      processAll fs [A, B] = RunResult.finished fs' (Line.skip A :: log) ∧
      fsGet fs' (bakPath B) = some (Content.notebook nb) := by
  obtain ⟨fs', log, heqB, hbak, _, _⟩ := process_notebook_run fs B nb hB
  refine ⟨fs', log, heqB, ?_, hbak⟩
  simp [processAll, process_missing_eq fs A hA, heqB]

/-- Witness for C7 at a concrete missing path and a concrete notebook file. -/
theorem processAll_independent_of_missing_witness :
    ∃ fs' log,
      remove_widgets_from_notebook sampleFS "a.ipynb" = PResult.ret true fs' log ∧
      processAll sampleFS ["gone.ipynb", "a.ipynb"]
        = RunResult.finished fs' (Line.skip "gone.ipynb" :: log) ∧
      fsGet fs' (bakPath "a.ipynb") = some (Content.notebook sampleNb) :=
  processAll_independent_of_missing sampleFS "gone.ipynb" "a.ipynb" sampleNb
    (by decide) (by decide)

/-- C9: a parse failure inside `remove_widgets_from_notebook` propagates
uncaught and halts the multi-file run with every later path unattempted; the
failing path's original content is unchanged while its backup was already
created. -/
theorem parse_failure_halts_run (fs : FS) (p : String) (r : Nat)
    (ps : List String) (h : fsGet fs p = some (Content.invalid r)) :
    ∃ fs' log,
      processAll fs (p :: ps) = RunResult.halted fs' log ps ∧
      fsGet fs' p = fsGet fs p ∧
      fsGet fs' (bakPath p) = some (Content.invalid r) := by
  refine ⟨fsSet fs (bakPath p) (Content.invalid r),
    [Line.backup p (bakPath p)], ?_, ?_, ?_⟩
  · simp [processAll, process_invalid_eq fs p r h]
  · exact fsGet_fsSet_ne fs (bakPath p) p _ (Ne.symm (bakPath_ne p))
  · exact fsGet_fsSet_self fs (bakPath p) _

/-- Witness for C9 at a concrete malformed file with a pending path. -/
theorem parse_failure_halts_run_witness :
    ∃ fs' log,
      processAll sampleFS ["bad.ipynb", "a.ipynb"]
        = RunResult.halted fs' log ["a.ipynb"] ∧
      fsGet fs' "bad.ipynb" = fsGet sampleFS "bad.ipynb" ∧
      fsGet fs' (bakPath "bad.ipynb") = some (Content.invalid 7) :=
  parse_failure_halts_run sampleFS "bad.ipynb" 7 ["a.ipynb"] (by decide)

/-- C10: a parseable document lacking a `cells` entry is traversed as an
empty cell sequence (the entry stays absent and contributes no change, so a
write-back happens only if the top-level metadata has `widgets`); a cell
lacking a `metadata` entry is left completely unchanged, with no empty
metadata mapping added and no change recorded; such documents are processed
without raising. -/
theorem missing_entries_handled :
    (∀ c : Cell, c.metadata = none → stripCell c = (c, false)) ∧
    (∀ nb : Notebook, nb.cells = none →
      (stripNotebook nb).nb.cells = none ∧
      (stripNotebook nb).changed = metaHas (nb.metadata.getD []) "widgets") ∧
    (∀ fs p nb, fsGet fs p = some (Content.notebook nb) → nb.cells = none →
      ∃ fs' log, remove_widgets_from_notebook fs p = PResult.ret true fs' log) := by
  refine ⟨?_, ?_, ?_⟩
  · intro c hc
    simp [stripCell, hc, metaHas]
  · intro nb hc
    refine ⟨stripNotebook_cells_none nb hc, ?_⟩
    rw [stripNotebook_changed]
    unfold widgetsAny
    rw [hc]
    rfl
  · intro fs p nb h _
    obtain ⟨fs', log, heq, _⟩ := process_notebook_run fs p nb h
    exact ⟨fs', log, heq⟩

/-- Witness for C10 at a concrete metadata-less cell and a cells-less
notebook file. -/
theorem missing_entries_handled_witness :
    stripCell sampleCellC = (sampleCellC, false) ∧
    ((stripNotebook sampleNbNoCells).nb.cells = none ∧
      (stripNotebook sampleNbNoCells).changed
        = metaHas (sampleNbNoCells.metadata.getD []) "widgets") ∧
    (∃ fs' log, remove_widgets_from_notebook sampleFS "plain.ipynb"
      = PResult.ret true fs' log) :=
  ⟨missing_entries_handled.1 sampleCellC (by decide),
   missing_entries_handled.2.1 sampleNbNoCells (by decide),
   missing_entries_handled.2.2 sampleFS "plain.ipynb" sampleNbNoCells
     (by decide) (by decide)⟩
